import Mathlib

/-!
Shallow embedding of the `puller` repository (a Rust CLI that archives
articles from the dev.to platform to local markdown files), covering the
sync engine (`src/main.rs::run_pull`), the sync state store
(`src/state.rs`), the persistence sink (`src/writer.rs`,
`src/article.rs`) and the dev.to source adapter
(`src/adapters/devto.rs`).

Modelling conventions:
- Rust `HashMap<String, V>` becomes an association list with
  insert-overwrites semantics (lookup returns the most recent binding).
- `chrono::DateTime<Utc>` becomes a record of a calendar date
  (year/month/day) plus a second-of-day; `chrono::NaiveDate` becomes the
  calendar-date record, ordered lexicographically.
- `Utc::now()` becomes an explicit `now : Nat` parameter threaded into
  the run.
- The filesystem visible to the engine is modelled as the persisted
  state record (`Option PullState`, `none` = no state file) plus the set
  of article file paths that exist (a duplicate-free `List String`).
- Fallible Rust functions returning `Result<T, PullError>` become
  `Except PullError T`.
- HTTP traffic is modelled by explicit response values handed to the
  adapter functions; the engine's collaboration with the adapter is
  modelled by a page function (listing) and a fetch function.
-/

namespace Puller

/-- Lookup in an association list modelling `HashMap::get`. -/
def assocLookup {α : Type} (l : List (String × α)) (k : String) : Option α :=
  match l with
  | [] => none
  | (k2, v) :: rest => if k2 = k then some v else assocLookup rest k

/-- Insert/overwrite in an association list modelling `HashMap::insert`. -/
def assocInsert {α : Type} (l : List (String × α)) (k : String) (v : α) :
    List (String × α) :=
  (k, v) :: l.filter (fun p => p.1 ≠ k)

/-- `src/platform.rs` — the platform enum.  Only the dev.to variant is
exercised by `run_pull` via `create_puller`, so the embedding carries the
single constructor used by the adapter under verification. -/
inductive Platform
  | DevTo
deriving DecidableEq, Repr

/-- `Display for Platform`: dev.to renders as "devto". -/
def Platform.toStr : Platform → String
  | .DevTo => "devto"

/-- `chrono::NaiveDate`: a calendar date, no time-of-day. -/
structure NaiveDate where
  year : Nat
  month : Nat
  day : Nat
deriving DecidableEq, Repr

/-- Lexicographic strict order on calendar dates (chrono's `Ord`). -/
def NaiveDate.lt (a b : NaiveDate) : Bool :=
  a.year < b.year ∨
    (a.year = b.year ∧ (a.month < b.month ∨ (a.month = b.month ∧ a.day < b.day)))

/-- `chrono::DateTime<Utc>`: a calendar date plus time-of-day. -/
structure UtcDateTime where
  date : NaiveDate
  secondOfDay : Nat
deriving DecidableEq, Repr

/-- `DateTime::date_naive` drops the time-of-day. -/
def UtcDateTime.dateNaive (t : UtcDateTime) : NaiveDate := t.date

/-- `src/error.rs::PullError`. -/
inductive PullError
  | Api (msg : String)
  | Http (msg : String)
  | Json (msg : String)
  | Yaml (msg : String)
  | Io (msg : String)
  | MissingConfig (key : String)
  | InvalidDate (msg : String)
  | NotFound (id : String)
  | RateLimited (secs : Nat)
  | UnsupportedPlatform (msg : String)
deriving DecidableEq, Repr

/-- `src/state.rs::PulledEntry` — one record per pulled identity. -/
structure PulledEntry where
  local_path : String
  pulled_at : Nat
deriving DecidableEq, Repr

/-- `src/state.rs::PullState` — the identity → entry mapping. -/
structure PullState where
  pulled : List (String × PulledEntry)
deriving DecidableEq, Repr

/-- `PullState::default()` — the empty mapping. -/
def PullState.empty : PullState := ⟨[]⟩

/-- `PullState::load`: read the state file if it exists, otherwise the
default (empty) state.  The persisted record is modelled at the parsed
level as `Option PullState` (`none` = no file). -/
def PullState.load (disk : Option PullState) : PullState :=
  disk.getD PullState.empty

/-- `PullState::is_pulled` — `contains_key`. -/
def PullState.is_pulled (st : PullState) (platform_id : String) : Bool :=
  (assocLookup st.pulled platform_id).isSome

/-- `PullState::mark_pulled` — insert/overwrite the entry, timestamped
with the current instant. -/
def PullState.mark_pulled (st : PullState) (platform_id local_path : String)
    (now : Nat) : PullState :=
  ⟨assocInsert st.pulled platform_id ⟨local_path, now⟩⟩

/-- `PullState::get_local_path`. -/
def PullState.get_local_path (st : PullState) (platform_id : String) :
    Option String :=
  (assocLookup st.pulled platform_id).map (fun e => e.local_path)

/-- `src/adapters/mod.rs::PullOptions`. -/
structure PullOptions where
  since : Option NaiveDate
  include_drafts : Bool
deriving DecidableEq, Repr

/-- `src/adapters/mod.rs::ArticleMetadata` (URLs kept as strings). -/
structure ArticleMetadata where
  id : String
  platform : Platform
  title : String
  published_at : Option UtcDateTime
  url : Option String
  is_draft : Bool
deriving DecidableEq, Repr

/-- `ArticleMetadata::platform_id` — `"<platform>:<id>"`. -/
def ArticleMetadata.platform_id (m : ArticleMetadata) : String :=
  m.platform.toStr ++ ":" ++ m.id

/-- `src/article.rs::PulledArticle` (URLs kept as strings). -/
structure PulledArticle where
  platform_id : String
  platform : Platform
  title : String
  body_markdown : String
  published_at : Option UtcDateTime
  url : Option String
  tags : List String
  series : Option String
  canonical_url : Option String
  is_draft : Bool
deriving DecidableEq, Repr

/-- Split a character list on dashes, dropping empty runs (the
`split('-')` + `filter(|s| !s.is_empty())` part of `slugify`).  The
`cur` accumulator holds the current word reversed. -/
def slugWords (cur : List Char) : List Char → List (List Char)
  | [] => if cur = [] then [] else [cur.reverse]
  | c :: rest =>
      if c = '-' then
        if cur = [] then slugWords [] rest
        else cur.reverse :: slugWords [] rest
      else slugWords (c :: cur) rest

/-- Join words with single dashes (the `join("-")` part of `slugify`). -/
def joinDash : List (List Char) → List Char
  | [] => []
  | [w] => w
  | w :: ws => w ++ '-' :: joinDash ws

/-- `src/article.rs::slugify`: lowercase, replace every character that is
not ASCII alphanumeric by a dash, split on dashes, drop empty runs, and
join the words with single dashes. -/
def slugify (title : String) : String :=
  String.mk (joinDash (slugWords []
    (title.toList.map
      (fun c => let lc := c.toLower; if lc.isAlphanum then lc else '-'))))

/-- Left-pad a decimal rendering with zeros, as chrono's date formatting
fields do. -/
def padNum (width n : Nat) : String :=
  let s := Nat.repr n
  String.mk (List.replicate (width - s.length) '0') ++ s

/-- chrono's `%Y-%m-%d` formatting of a calendar date. -/
def formatDate (d : NaiveDate) : String :=
  padNum 4 d.year ++ "-" ++ padNum 2 d.month ++ "-" ++ padNum 2 d.day

/-- `PulledArticle::generate_filename`: `"<date|draft>-<slug>.md"`. -/
def PulledArticle.generate_filename (a : PulledArticle) : String :=
  let date_prefix :=
    match a.published_at with
    | none => "draft"
    | some dt => formatDate dt.dateNaive
  date_prefix ++ "-" ++ slugify a.title ++ ".md"

/-- `src/writer.rs::FolderStructure`. -/
inductive FolderStructure
  | Platform
  | Flat
deriving DecidableEq, Repr

/-- Record a path as existing; the article file set stays duplicate-free
(`std::fs::write` overwrites an existing file in place). -/
def addFile (files : List String) (p : String) : List String :=
  if p ∈ files then files else files ++ [p]

/-- `src/writer.rs::Writer::write_article`: compute the relative path
from the folder structure; when not a dry run, write the article file
and mark the article's identity in the state.  Returns the relative
path together with the updated state and file set. -/
def write_article (dryRun : Bool) (fstruct : FolderStructure)
    (article : PulledArticle) (st : PullState) (files : List String)
    (now : Nat) : String × PullState × List String :=
  let filename := article.generate_filename
  let relative_path :=
    match fstruct with
    | .Flat => filename
    | .Platform => article.platform.toStr ++ "/" ++ filename
  if dryRun then
    (relative_path, st, files)
  else
    let platform_id := article.platform.toStr ++ ":" ++ article.platform_id
    (relative_path, st.mark_pulled platform_id relative_path now,
      addFile files relative_path)

/-- Inputs of one `run_pull` invocation (`src/main.rs::run_pull`).  The
adapter collaboration is modelled by the outcome of `list_articles` and
by the per-identity fetch function; the pre-run filesystem is the
persisted state record plus the existing article files. -/
structure RunInput where
  disk : Option PullState
  files : List String
  listResult : Except PullError (List ArticleMetadata)
  fetchFn : String → Except PullError PulledArticle
  dryRun : Bool
  force : Bool
  fstruct : FolderStructure
  now : Nat

/-- Observables of one `run_pull` invocation: the post-run filesystem,
the final in-memory state, the `fetch_article` calls issued (in order),
the articles handed to the sink, and the outcome with the
(pulled, skipped) counts on success. -/
structure RunResult where
  disk : Option PullState
  files : List String
  finalState : PullState
  fetchCalls : List String
  written : List PulledArticle
  outcome : Except PullError (Nat × Nat)

/-- The per-article loop of `run_pull` (`src/main.rs` lines 122–145):
skip an identity already in state unless forced; otherwise fetch the
full article and hand it to the writer; a fetch error aborts the loop
immediately.  Returns the final state, file set, fetch calls, sink
inputs, and the outcome carrying the counts. -/
def pullLoop (fetchFn : String → Except PullError PulledArticle)
    (dryRun force : Bool) (fstruct : FolderStructure) (now : Nat) :
    List ArticleMetadata → PullState → List String → Nat → Nat →
    PullState × List String × List String × List PulledArticle ×
      Except PullError (Nat × Nat)
  | [], st, files, pulled, skipped =>
      (st, files, [], [], .ok (pulled, skipped))
  | meta :: rest, st, files, pulled, skipped =>
      if ¬force ∧ st.is_pulled meta.platform_id then
        pullLoop fetchFn dryRun force fstruct now rest st files pulled
          (skipped + 1)
      else
        match fetchFn meta.id with
        | .error e => (st, files, [meta.id], [], .error e)
        | .ok article =>
            let w := write_article dryRun fstruct article st files now
            let r := pullLoop fetchFn dryRun force fstruct now rest w.2.1
              w.2.2 (pulled + 1) skipped
            (r.1, r.2.1, meta.id :: r.2.2.1, article :: r.2.2.2.1,
              r.2.2.2.2)

/-- The in-memory state `run_pull` starts from (`src/main.rs` lines
109–113): the default state on a dry run, else the loaded state. -/
def loadedState (inp : RunInput) : PullState :=
  if inp.dryRun then PullState.empty else PullState.load inp.disk

/-- `src/main.rs::run_pull`: initialize state (default on dry run, else
load), take the listing result, run the per-article loop, and — only on
a non-dry run whose loop completed — save the state once at the end.  A
listing or fetch error is returned as the run's outcome and the save is
never reached. -/
def runPull (inp : RunInput) : RunResult :=
  let state0 := loadedState inp
  match inp.listResult with
  | .error e =>
      ⟨inp.disk, inp.files, state0, [], [], .error e⟩
  | .ok articles =>
      let r := pullLoop inp.fetchFn inp.dryRun inp.force inp.fstruct inp.now
        articles state0 inp.files 0 0
      match r.2.2.2.2 with
      | .error e => ⟨inp.disk, r.2.1, r.1, r.2.2.1, r.2.2.2.1, .error e⟩
      | .ok counts =>
          let disk2 := if inp.dryRun then inp.disk else some r.1
          ⟨disk2, r.2.1, r.1, r.2.2.1, r.2.2.2.1, .ok counts⟩

/-- `src/adapters/devto.rs::PER_PAGE`. -/
def PER_PAGE : Nat := 100

/-- An HTTP response as the adapter observes it: status code and the
`retry-after` header (modelled as an already-decoded header string). -/
structure HttpResponse where
  status : Nat
  retryAfter : Option String
deriving DecidableEq, Repr

/-- Rust `str::parse::<u64>()` (then `.ok()`): optional leading plus
sign, at least one digit, all digits, value below `2^64`. -/
def parseU64 (s : String) : Option Nat :=
  let cs :=
    match s.toList with
    | '+' :: rest => rest
    | cs => cs
  if cs = [] then none
  else if cs.all Char.isDigit then
    let n := cs.foldl (fun a c => a * 10 + (c.toNat - 48)) 0
    if n < 2 ^ 64 then some n else none
  else none

/-- The adapter's retry-after extraction on a 429: parse the header,
default to 60 seconds (`devto.rs` lines 96–101 and 212–217). -/
def retryAfterOf (resp : HttpResponse) : Nat :=
  (resp.retryAfter.bind parseU64).getD 60

/-- `reqwest::StatusCode::is_success`: the 2xx range. -/
def isSuccessStatus (s : Nat) : Bool := 200 ≤ s ∧ s < 300

/-- `src/adapters/devto.rs::DevToArticleListItem` — a record from the
paged `/articles/me/all` listing (includes full content). -/
structure DevToArticleListItem where
  id : Nat
  title : String
  body_markdown : String
  published_at : Option UtcDateTime
  url : String
  tag_list : List String
  canonical_url : Option String
  published : Bool
deriving DecidableEq, Repr

/-- `src/adapters/devto.rs::DevToArticle` — a record from the
single-article endpoint (carries the series name when present). -/
structure DevToArticle where
  id : Nat
  title : String
  body_markdown : String
  published_at : Option UtcDateTime
  url : String
  tags : List String
  series : Option String
  canonical_url : Option String
  published : Bool
deriving DecidableEq, Repr

/-- Models `url::Url::parse(s).ok()` on the URL strings the adapter
passes through; URL validity is never relevant to the engine, so the
parse is modelled as always succeeding with the string itself. -/
def urlParseOk (s : String) : Option String := some s

/-- `DevToPuller::fetch_page` after the HTTP send (`devto.rs` lines
95–115): 429 becomes `RateLimited` with the parsed retry-after, any
other non-2xx becomes `Api`, and otherwise the decoded page body (the
`parsed` argument models `response.json()`) is returned. -/
def fetch_page_result (resp : HttpResponse)
    (parsed : Except PullError (List DevToArticleListItem)) :
    Except PullError (List DevToArticleListItem) :=
  if resp.status = 429 then .error (.RateLimited (retryAfterOf resp))
  else if ¬isSuccessStatus resp.status then
    .error (.Api ("Dev.to API returned " ++ Nat.repr resp.status))
  else parsed

/-- The date filter of `list_articles` (`devto.rs` lines 133–140): an
item is dropped exactly when a minimum date is set, the item has a
publish timestamp, and the timestamp's calendar date is strictly before
the minimum. -/
def passesDateFilter (since : Option NaiveDate)
    (published_at : Option UtcDateTime) : Bool :=
  match since, published_at with
  | some s, some t => ¬NaiveDate.lt t.dateNaive s
  | _, _ => true

/-- The draft filter of `list_articles` (`devto.rs` lines 142–145): an
unpublished item is dropped unless drafts are requested. -/
def passesDraftFilter (include_drafts published : Bool) : Bool :=
  published || include_drafts

/-- An item survives the listing-phase filters. -/
def survives (opts : PullOptions) (item : DevToArticleListItem) : Bool :=
  passesDateFilter opts.since item.published_at &&
    passesDraftFilter opts.include_drafts item.published

/-- The metadata record `list_articles` builds for a surviving item
(`devto.rs` lines 155–162). -/
def itemToMeta (item : DevToArticleListItem) : ArticleMetadata :=
  { id := Nat.repr item.id
    platform := .DevTo
    title := item.title
    published_at := item.published_at
    url := urlParseOk item.url
    is_draft := !item.published }

/-- The adapter's in-run article cache (`article_cache`). -/
abbrev DevToCache := List (String × DevToArticleListItem)

/-- The per-page body of `list_articles` (`devto.rs` lines 132–163):
apply the date and draft filters; every surviving item is inserted into
the cache and contributes a metadata record, in page order. -/
def processPage (opts : PullOptions) :
    List DevToArticleListItem → DevToCache →
    List ArticleMetadata × DevToCache
  | [], cache => ([], cache)
  | item :: rest, cache =>
      if survives opts item then
        let cache2 := assocInsert cache (Nat.repr item.id) item
        let r := processPage opts rest cache2
        (itemToMeta item :: r.1, r.2)
      else processPage opts rest cache

/-- The pagination loop of `list_articles` (`devto.rs` lines 128–169):
fetch the current page (`pageFn` models a successful `fetch_page`),
process it, and stop when the page holds fewer than `PER_PAGE` raw
items, else continue with the next page number.  The loop in the source
has no bound, so the embedding carries fuel; `none` means the fuel ran
out before a short page appeared. -/
def listLoop (pageFn : Nat → List DevToArticleListItem)
    (opts : PullOptions) :
    Nat → Nat → DevToCache →
    Option (List Nat × List ArticleMetadata × DevToCache)
  | 0, _, _ => none
  | fuel + 1, page, cache =>
      let items := pageFn page
      let r := processPage opts items cache
      if items.length < PER_PAGE then some ([page], r.1, r.2)
      else
        match listLoop pageFn opts fuel (page + 1) r.2 with
        | none => none
        | some (calls, metas, cache2) =>
            some (page :: calls, r.1 ++ metas, cache2)

/-- `DevToPuller::list_articles`: run the pagination loop from page 1
with an empty cache, returning the pages requested (in order), the
accumulated metadata in listing order, and the final cache. -/
def list_articles (pageFn : Nat → List DevToArticleListItem)
    (opts : PullOptions) (fuel : Nat) :
    Option (List Nat × List ArticleMetadata × DevToCache) :=
  listLoop pageFn opts fuel 1 []

/-- The article a cache hit of `fetch_article` returns (`devto.rs` lines
179–193): built from the cached listing record, with `series := none`
because the list endpoint does not carry series data. -/
def cachedToPulled (item : DevToArticleListItem) : PulledArticle :=
  { platform_id := Nat.repr item.id
    platform := .DevTo
    title := item.title
    body_markdown := item.body_markdown
    published_at := item.published_at
    url := urlParseOk item.url
    tags := item.tag_list
    series := none
    canonical_url := item.canonical_url.bind urlParseOk
    is_draft := !item.published }

/-- The article built from the single-article endpoint's body
(`devto.rs` lines 232–243); the series name is carried through. -/
def devtoArticleToPulled (a : DevToArticle) : PulledArticle :=
  { platform_id := Nat.repr a.id
    platform := .DevTo
    title := a.title
    body_markdown := a.body_markdown
    published_at := a.published_at
    url := urlParseOk a.url
    tags := a.tags
    series := a.series
    canonical_url := a.canonical_url.bind urlParseOk
    is_draft := !a.published }

/-- The HTTP fallback of `fetch_article` (`devto.rs` lines 198–243):
404 becomes `NotFound`, 429 becomes `RateLimited` with the parsed
retry-after, any other non-2xx becomes `Api`, and otherwise the decoded
article (the `parsed` argument models `response.json()`) is converted. -/
def fetchArticleHttp (resp : HttpResponse)
    (parsed : Except PullError DevToArticle) (id : String) :
    Except PullError PulledArticle :=
  if resp.status = 404 then .error (.NotFound id)
  else if resp.status = 429 then .error (.RateLimited (retryAfterOf resp))
  else if ¬isSuccessStatus resp.status then
    .error (.Api ("Dev.to API returned " ++ Nat.repr resp.status))
  else parsed.map devtoArticleToPulled

/-- `DevToPuller::fetch_article`: answer from the in-run cache when the
id is cached (no HTTP request), else fall back to the single-article
endpoint (`http` models the response and decoded body for the id).  The
boolean records whether an HTTP request was issued. -/
def devtoFetchArticle (cache : DevToCache)
    (http : String → HttpResponse × Except PullError DevToArticle)
    (id : String) : Except PullError PulledArticle × Bool :=
  match assocLookup cache id with
  | some item => (.ok (cachedToPulled item), false)
  | none => (fetchArticleHttp (http id).1 (http id).2 id, true)

/-- Serialization of a pulled entry, modelling the shape of
`serde_json::to_string_pretty` (timestamps are abstracted to naturals,
rendered in quotes). -/
def entryToJson (k : String) (e : PulledEntry) : String :=
  "    \x22" ++ k ++ "\x22: \x7b\n      \x22local_path\x22: \x22" ++
    e.local_path ++ "\x22,\n      \x22pulled_at\x22: \x22" ++
    Nat.repr e.pulled_at ++ "\x22\n    \x7d"

/-- Serialization of the whole state record, modelling
`serde_json::to_string_pretty(self)` in `PullState::save`. -/
def stateToJson (st : PullState) : String :=
  "\x7b\n  \x22pulled\x22: \x7b\n" ++
    String.intercalate ",\n" (st.pulled.map (fun p => entryToJson p.1 p.2)) ++
    "\n  \x7d\n\x7d"

/-- Byte-level model of `std::fs::write(state_path, content)` as used by
`PullState::save` (`state.rs` line 36): the destination file itself is
truncated and written in place, with no temporary file or atomic
rename.  `failAfter = none` models a successful write; `failAfter =
some k` models an I/O failure after `k` characters reached the file, in
which case the file holds the partial prefix.  Returns the resulting
file content (`none` = no file) and whether the save succeeded. -/
def fsWriteInPlace (content : String) (failAfter : Option Nat) :
    Option String × Bool :=
  match failAfter with
  | none => (some content, true)
  | some k => (some (String.mk (content.toList.take k)), false)

/-- `PullState::save` at the byte level: serialize the state and write
it in place over the state file. -/
def saveBytes (st : PullState) (failAfter : Option Nat) :
    Option String × Bool :=
  fsWriteInPlace (stateToJson st) failAfter

/-- Concrete metadata value (an undated published article with id 1). -/
def metaOne : ArticleMetadata :=
  { id := "1", platform := .DevTo, title := "A", published_at := none,
    url := none, is_draft := false }

/-- Concrete metadata value (an undated published article with id 2). -/
def metaTwo : ArticleMetadata :=
  { id := "2", platform := .DevTo, title := "B", published_at := none,
    url := none, is_draft := false }

/-- Concrete full article for id 1. -/
def articleOne : PulledArticle :=
  { platform_id := "1", platform := .DevTo, title := "A",
    body_markdown := "x", published_at := none, url := none, tags := [],
    series := none, canonical_url := none, is_draft := false }

/-- A fetch function for which id 1 succeeds and every other id fails
with an API error. -/
def fetchOneOkTwoFails : String → Except PullError PulledArticle :=
  fun id => if id = "1" then .ok articleOne else .error (.Api "boom")

/-- A coherent fetch function that succeeds on every id (the returned
article carries the requested id). -/
def fetchAlwaysOk : String → Except PullError PulledArticle :=
  fun id =>
    .ok { platform_id := id, platform := .DevTo, title := id,
          body_markdown := "x", published_at := none, url := none,
          tags := [], series := none, canonical_url := none,
          is_draft := false }

/-- The run in which item 1 is fetched and persisted and then item 2's
fetch fails: no prior state file, force and dry-run off. -/
def c1Input : RunInput :=
  { disk := none, files := [], listResult := .ok [metaOne, metaTwo],
    fetchFn := fetchOneOkTwoFails, dryRun := false, force := false,
    fstruct := .Platform, now := 0 }

/-- The subsequent run, started from the filesystem the failed run left
behind, with the same inputs. -/
def c1SecondInput : RunInput :=
  { c1Input with disk := (runPull c1Input).disk,
                 files := (runPull c1Input).files }

/-- The same scenario as a dry run. -/
def c2Input : RunInput := { c1Input with dryRun := true }

/-- A state record already holding identity devto:1. -/
def stateWithOne : PullState := ⟨[("devto:1", ⟨"a.md", 0⟩)]⟩

/-- A non-forced run whose single listed article is already in state. -/
def c3Input : RunInput :=
  { c1Input with disk := some stateWithOne,
                 listResult := .ok [metaOne],
                 fetchFn := fun id => .error (.NotFound id) }

/-- A run that succeeds on both listed articles. -/
def c4Input : RunInput := { c1Input with fetchFn := fetchAlwaysOk }

/-- Concrete listing record (published, dated 2024-03-15, id 10). -/
def sampleItem : DevToArticleListItem :=
  { id := 10, title := "Hello World", body_markdown := "hi",
    published_at := some ⟨⟨2024, 3, 15⟩, 3600⟩,
    url := "https://dev.to/u/hello-world", tag_list := ["rust"],
    canonical_url := none, published := true }

/-- A page function serving pages of sizes 100, 100, 37 and then empty
pages. -/
def pageFnC6 : Nat → List DevToArticleListItem :=
  fun n =>
    if n = 1 ∨ n = 2 then List.replicate 100 sampleItem
    else if n = 3 then List.replicate 37 sampleItem
    else []

/-- A page function with a single short page. -/
def pageFnOne : Nat → List DevToArticleListItem := fun _ => [sampleItem]

/-- The cache `list_articles` builds from `pageFnOne`. -/
def cacheOne : DevToCache := [("10", sampleItem)]

/-- A single-article HTTP collaborator that always answers 200 with an
undecodable body (never consulted on cache hits). -/
def httpDummy : String → HttpResponse × Except PullError DevToArticle :=
  fun _ => (⟨200, none⟩, .error (.Api "q"))

/-- A 429 response carrying a retry-after header of 17 seconds. -/
def resp429 : HttpResponse := ⟨429, some "17"⟩

/-- A run whose single article's fetch goes through the adapter's HTTP
path and hits the 429 response. -/
def c8Input : RunInput :=
  { c1Input with listResult := .ok [metaOne],
                 fetchFn := fun id =>
                   fetchArticleHttp resp429 (.error (.Api "x")) id }

/-- A dry run over two articles whose fetches all succeed, started on
top of a persisted state that already records both identities. -/
def c9Input : RunInput :=
  { c1Input with dryRun := true,
                 fetchFn := fetchAlwaysOk,
                 disk := some ⟨[("devto:1", ⟨"a.md", 0⟩),
                               ("devto:2", ⟨"b.md", 0⟩)]⟩ }

/-- A run wired to the dev.to adapter's cache-backed fetch over the
cache built from `pageFnOne`. -/
def c10Input : RunInput :=
  { c1Input with listResult := .ok [itemToMeta sampleItem],
                 fetchFn := fun id =>
                   (devtoFetchArticle cacheOne httpDummy id).1 }

theorem assocLookup_insert_self {α : Type} (l : List (String × α))
    (k : String) (v : α) : assocLookup (assocInsert l k v) k = some v := by
  simp [assocInsert, assocLookup]

theorem assocLookup_filter_ne {α : Type} (l : List (String × α))
    (k k2 : String) (hk : k ≠ k2) :
    assocLookup (l.filter (fun p => p.1 ≠ k)) k2 = assocLookup l k2 := by
  induction l with
  | nil => rfl
  | cons p rest ih =>
      by_cases hpk : p.1 = k
      · have hd : (decide (p.1 ≠ k)) = false := by simp [hpk]
        simp only [List.filter, hd]
        rw [ih]
        have hp2 : p.1 ≠ k2 := by rw [hpk]; exact hk
        simp [assocLookup, hp2]
      · have hd : (decide (p.1 ≠ k)) = true := by simp [hpk]
        simp only [List.filter, hd]
        by_cases hp2 : p.1 = k2
        · simp [assocLookup, hp2]
        · simp only [assocLookup, if_neg hp2]
          simpa using ih

theorem assocLookup_insert_ne {α : Type} (l : List (String × α))
    (k k2 : String) (v : α) (hk : k ≠ k2) :
    assocLookup (assocInsert l k v) k2 = assocLookup l k2 := by
  simp only [assocInsert, assocLookup, if_neg hk]
  exact assocLookup_filter_ne l k k2 hk

theorem assocLookup_insert_isSome {α : Type} (l : List (String × α))
    (k k2 : String) (v : α) (h : (assocLookup l k2).isSome = true) :
    (assocLookup (assocInsert l k v) k2).isSome = true := by
  by_cases hk : k = k2
  · subst hk; simp [assocLookup_insert_self]
  · rw [assocLookup_insert_ne l k k2 v hk]; exact h

theorem is_pulled_mark_self (st : PullState) (k p : String) (now : Nat) :
    (st.mark_pulled k p now).is_pulled k = true := by
  simp [PullState.mark_pulled, PullState.is_pulled, assocLookup_insert_self]

theorem is_pulled_mark_mono (st : PullState) (k k2 p : String) (now : Nat)
    (h : st.is_pulled k2 = true) :
    (st.mark_pulled k p now).is_pulled k2 = true := by
  simp only [PullState.mark_pulled, PullState.is_pulled] at h ⊢
  exact assocLookup_insert_isSome _ _ _ _ h

theorem is_pulled_empty (k : String) : PullState.empty.is_pulled k = false := by
  simp [PullState.empty, PullState.is_pulled, assocLookup]

theorem platform_eq_devto (p : Platform) : p = Platform.DevTo := by
  cases p; rfl

theorem platform_toStr (p : Platform) : p.toStr = "devto" := by
  cases p; rfl

theorem platform_id_eq (m : ArticleMetadata) :
    m.platform_id = Platform.toStr Platform.DevTo ++ ":" ++ m.id := by
  simp [ArticleMetadata.platform_id, platform_toStr]

theorem string_append_left_cancel (s a b : String) (h : s ++ a = s ++ b) :
    a = b := by
  have h2 := congrArg String.data h
  simp [String.data_append] at h2
  exact String.ext h2

theorem write_article_dry (fstruct : FolderStructure)
    (article : PulledArticle) (st : PullState) (files : List String)
    (now : Nat) :
    (write_article true fstruct article st files now).2.1 = st ∧
    (write_article true fstruct article st files now).2.2 = files := by
  simp [write_article]

theorem write_article_mono (dry : Bool) (fstruct : FolderStructure)
    (article : PulledArticle) (st : PullState) (files : List String)
    (now : Nat) (key : String) (h : st.is_pulled key = true) :
    (write_article dry fstruct article st files now).2.1.is_pulled key
      = true := by
  cases dry with
  | true => simpa [write_article] using h
  | false =>
      simp only [write_article, Bool.false_eq_true, if_false]
      exact is_pulled_mark_mono _ _ _ _ _ h

theorem pullLoop_dry_preserves (f : String → Except PullError PulledArticle)
    (force : Bool) (fstruct : FolderStructure) (now : Nat) :
    ∀ (arts : List ArticleMetadata) (st : PullState) (files : List String)
      (p k : Nat),
      (pullLoop f true force fstruct now arts st files p k).1 = st ∧
      (pullLoop f true force fstruct now arts st files p k).2.1 = files := by
  intro arts
  induction arts with
  | nil => intro st files p k; exact ⟨rfl, rfl⟩
  | cons meta rest ih =>
      intro st files p k
      simp only [pullLoop]
      by_cases h : (¬force = true ∧ st.is_pulled meta.platform_id = true)
      · rw [if_pos h]; exact ih st files p (k + 1)
      · rw [if_neg h]
        cases hf : f meta.id with
        | error e => exact ⟨rfl, rfl⟩
        | ok article =>
            simp only []
            have hw := write_article_dry fstruct article st files now
            have := ih (write_article true fstruct article st files now).2.1
              (write_article true fstruct article st files now).2.2 (p + 1) k
            rw [hw.1, hw.2] at this
            exact this

/-- C2: a dry run leaves the persisted state record and the set of
article files untouched, and the in-memory state remains the empty
default (it is never marked and never saved). -/
theorem c2_dry_run_purity (inp : RunInput) (hdry : inp.dryRun = true) :
    (runPull inp).disk = inp.disk ∧ (runPull inp).files = inp.files ∧
    (runPull inp).finalState = PullState.empty := by
  have hstate : loadedState inp = PullState.empty := by
    simp [loadedState, hdry]
  cases hl : inp.listResult with
  | error e => simp [runPull, hl, hstate]
  | ok arts =>
      simp only [runPull, hl, hdry, hstate]
      have hpres := pullLoop_dry_preserves inp.fetchFn inp.force inp.fstruct
        inp.now arts PullState.empty inp.files 0 0
      cases ho : (pullLoop inp.fetchFn true inp.force inp.fstruct
          inp.now arts PullState.empty inp.files 0 0).2.2.2.2 with
      | error e => simp [ho, hpres.1, hpres.2]
      | ok counts => simp [ho, hpres.1, hpres.2]

/-- Witness for C2 at a concrete dry-run input. -/
theorem c2_dry_run_purity_witness :
    c2Input.dryRun = true ∧
    ((runPull c2Input).disk = c2Input.disk ∧
     (runPull c2Input).files = c2Input.files ∧
     (runPull c2Input).finalState = PullState.empty) :=
  ⟨rfl, c2_dry_run_purity c2Input rfl⟩

theorem pullLoop_nil (f : String → Except PullError PulledArticle)
    (dry force : Bool) (fstruct : FolderStructure) (now : Nat)
    (st : PullState) (files : List String) (p k : Nat) :
    pullLoop f dry force fstruct now [] st files p k =
      (st, files, [], [], .ok (p, k)) := rfl

theorem pullLoop_cons_skip (f : String → Except PullError PulledArticle)
    (dry force : Bool) (fstruct : FolderStructure) (now : Nat)
    (meta : ArticleMetadata) (rest : List ArticleMetadata)
    (st : PullState) (files : List String) (p k : Nat)
    (hc : ¬force = true ∧ st.is_pulled meta.platform_id = true) :
    pullLoop f dry force fstruct now (meta :: rest) st files p k =
      pullLoop f dry force fstruct now rest st files p (k + 1) := by
  simp only [pullLoop]
  rw [if_pos hc]

theorem pullLoop_cons_err (f : String → Except PullError PulledArticle)
    (dry force : Bool) (fstruct : FolderStructure) (now : Nat)
    (meta : ArticleMetadata) (rest : List ArticleMetadata)
    (st : PullState) (files : List String) (p k : Nat) (e : PullError)
    (hc : ¬(¬force = true ∧ st.is_pulled meta.platform_id = true))
    (hf : f meta.id = .error e) :
    pullLoop f dry force fstruct now (meta :: rest) st files p k =
      (st, files, [meta.id], [], .error e) := by
  simp only [pullLoop]
  rw [if_neg hc, hf]

theorem pullLoop_cons_ok (f : String → Except PullError PulledArticle)
    (dry force : Bool) (fstruct : FolderStructure) (now : Nat)
    (meta : ArticleMetadata) (rest : List ArticleMetadata)
    (st : PullState) (files : List String) (p k : Nat)
    (article : PulledArticle)
    (hc : ¬(¬force = true ∧ st.is_pulled meta.platform_id = true))
    (hf : f meta.id = .ok article) :
    pullLoop f dry force fstruct now (meta :: rest) st files p k =
      ((pullLoop f dry force fstruct now rest
          (write_article dry fstruct article st files now).2.1
          (write_article dry fstruct article st files now).2.2 (p + 1) k).1,
       (pullLoop f dry force fstruct now rest
          (write_article dry fstruct article st files now).2.1
          (write_article dry fstruct article st files now).2.2 (p + 1) k).2.1,
       meta.id ::
         (pullLoop f dry force fstruct now rest
            (write_article dry fstruct article st files now).2.1
            (write_article dry fstruct article st files now).2.2
            (p + 1) k).2.2.1,
       article ::
         (pullLoop f dry force fstruct now rest
            (write_article dry fstruct article st files now).2.1
            (write_article dry fstruct article st files now).2.2
            (p + 1) k).2.2.2.1,
       (pullLoop f dry force fstruct now rest
          (write_article dry fstruct article st files now).2.1
          (write_article dry fstruct article st files now).2.2
          (p + 1) k).2.2.2.2) := by
  simp only [pullLoop]
  rw [if_neg hc, hf]

theorem pullLoop_state_mono (f : String → Except PullError PulledArticle)
    (dry force : Bool) (fstruct : FolderStructure) (now : Nat) :
    ∀ (arts : List ArticleMetadata) (st : PullState) (files : List String)
      (p k : Nat) (key : String), st.is_pulled key = true →
      (pullLoop f dry force fstruct now arts st files p k).1.is_pulled key
        = true := by
  intro arts
  induction arts with
  | nil => intro st files p k key h; exact h
  | cons meta rest ih =>
      intro st files p k key h
      by_cases hc : (¬force = true ∧ st.is_pulled meta.platform_id = true)
      · rw [pullLoop_cons_skip f dry force fstruct now meta rest st files
          p k hc]
        exact ih _ _ _ _ _ h
      · cases hf : f meta.id with
        | error e =>
            rw [pullLoop_cons_err f dry force fstruct now meta rest st files
              p k e hc hf]
            exact h
        | ok article =>
            rw [pullLoop_cons_ok f dry force fstruct now meta rest st files
              p k article hc hf]
            exact ih _ _ _ _ _
              (write_article_mono dry fstruct article st files now key h)

theorem pullLoop_not_fetched (f : String → Except PullError PulledArticle)
    (dry : Bool) (fstruct : FolderStructure) (now : Nat) :
    ∀ (arts : List ArticleMetadata) (st : PullState) (files : List String)
      (p k : Nat) (i : String),
      st.is_pulled (Platform.toStr Platform.DevTo ++ ":" ++ i) = true →
      i ∉ (pullLoop f dry false fstruct now arts st files p k).2.2.1 := by
  intro arts
  induction arts with
  | nil => intro st files p k i h; simp [pullLoop_nil]
  | cons meta rest ih =>
      intro st files p k i h
      by_cases hp : st.is_pulled meta.platform_id = true
      · rw [pullLoop_cons_skip f dry false fstruct now meta rest st files
          p k ⟨by simp, hp⟩]
        exact ih _ _ _ _ _ h
      · have hc : ¬(¬(false : Bool) = true ∧
            st.is_pulled meta.platform_id = true) := by
          intro hx; exact hp hx.2
        have hne : meta.id ≠ i := by
          intro he
          apply hp
          rw [platform_id_eq meta, he]
          exact h
        cases hf : f meta.id with
        | error e =>
            rw [pullLoop_cons_err f dry false fstruct now meta rest st files
              p k e hc hf]
            simp
            exact fun hx => hne hx.symm
        | ok article =>
            rw [pullLoop_cons_ok f dry false fstruct now meta rest st files
              p k article hc hf]
            have h2 := write_article_mono dry fstruct article st files now _ h
            have h3 := ih (write_article dry fstruct article st files now).2.1
              (write_article dry fstruct article st files now).2.2
              (p + 1) k i h2
            simp only [List.mem_cons, not_or]
            exact ⟨fun hx => hne hx.symm, h3⟩

theorem pullLoop_skip_count (f : String → Except PullError PulledArticle)
    (dry : Bool) (fstruct : FolderStructure) (now : Nat) (st0 : PullState) :
    ∀ (arts : List ArticleMetadata) (st : PullState) (files : List String)
      (p k : Nat) (counts : Nat × Nat),
      (∀ key, st0.is_pulled key = true → st.is_pulled key = true) →
      (pullLoop f dry false fstruct now arts st files p k).2.2.2.2
        = .ok counts →
      k + (arts.filter
            (fun m => st0.is_pulled m.platform_id)).length ≤ counts.2 := by
  intro arts
  induction arts with
  | nil =>
      intro st files p k counts hsub hok
      rw [pullLoop_nil] at hok
      cases hok
      simp
  | cons meta rest ih =>
      intro st files p k counts hsub hok
      by_cases h0 : st0.is_pulled meta.platform_id = true
      · have hp : st.is_pulled meta.platform_id = true := hsub _ h0
        rw [pullLoop_cons_skip f dry false fstruct now meta rest st files
          p k ⟨by simp, hp⟩] at hok
        have hrec := ih st files p (k + 1) counts hsub hok
        have hlen :
            (List.filter (fun m => st0.is_pulled m.platform_id)
              (meta :: rest)).length =
            (List.filter (fun m => st0.is_pulled m.platform_id)
              rest).length + 1 := by
          simp [List.filter_cons, h0]
        rw [hlen]
        omega
      · have hfilter :
            (List.filter (fun m => st0.is_pulled m.platform_id)
              (meta :: rest)).length =
            (List.filter (fun m => st0.is_pulled m.platform_id)
              rest).length := by
          simp [List.filter_cons, Bool.eq_false_iff.mpr h0]
        rw [hfilter]
        by_cases hp : st.is_pulled meta.platform_id = true
        · rw [pullLoop_cons_skip f dry false fstruct now meta rest st files
            p k ⟨by simp, hp⟩] at hok
          have := ih st files p (k + 1) counts hsub hok
          omega
        · have hc : ¬(¬(false : Bool) = true ∧
              st.is_pulled meta.platform_id = true) := by
            intro hx; exact hp hx.2
          cases hf : f meta.id with
          | error e =>
              rw [pullLoop_cons_err f dry false fstruct now meta rest st
                files p k e hc hf] at hok
              cases hok
          | ok article =>
              rw [pullLoop_cons_ok f dry false fstruct now meta rest st
                files p k article hc hf] at hok
              have hsub2 : ∀ key, st0.is_pulled key = true →
                  (write_article dry fstruct article st files
                    now).2.1.is_pulled key = true := by
                intro key hkey
                exact write_article_mono dry fstruct article st files now key
                  (hsub key hkey)
              exact ih _ _ (p + 1) k counts hsub2 hok

theorem runPull_fields (inp : RunInput) (arts : List ArticleMetadata)
    (hl : inp.listResult = .ok arts) :
    (runPull inp).fetchCalls =
      (pullLoop inp.fetchFn inp.dryRun inp.force inp.fstruct inp.now arts
        (loadedState inp) inp.files 0 0).2.2.1 ∧
    (runPull inp).written =
      (pullLoop inp.fetchFn inp.dryRun inp.force inp.fstruct inp.now arts
        (loadedState inp) inp.files 0 0).2.2.2.1 ∧
    (runPull inp).finalState =
      (pullLoop inp.fetchFn inp.dryRun inp.force inp.fstruct inp.now arts
        (loadedState inp) inp.files 0 0).1 ∧
    (runPull inp).files =
      (pullLoop inp.fetchFn inp.dryRun inp.force inp.fstruct inp.now arts
        (loadedState inp) inp.files 0 0).2.1 := by
  simp only [runPull, hl]
  cases ho : (pullLoop inp.fetchFn inp.dryRun inp.force inp.fstruct inp.now
      arts (loadedState inp) inp.files 0 0).2.2.2.2 with
  | error e => simp [ho]
  | ok counts => simp [ho]

theorem runPull_outcome_eq (inp : RunInput) (arts : List ArticleMetadata)
    (hl : inp.listResult = .ok arts) :
    (runPull inp).outcome =
      (pullLoop inp.fetchFn inp.dryRun inp.force inp.fstruct inp.now arts
        (loadedState inp) inp.files 0 0).2.2.2.2 := by
  simp only [runPull, hl]
  cases ho : (pullLoop inp.fetchFn inp.dryRun inp.force inp.fstruct inp.now
      arts (loadedState inp) inp.files 0 0).2.2.2.2 with
  | error e => simp [ho]
  | ok counts => simp [ho]

theorem runPull_disk_of_loop_error (inp : RunInput)
    (arts : List ArticleMetadata) (e : PullError)
    (hl : inp.listResult = .ok arts)
    (herr : (pullLoop inp.fetchFn inp.dryRun inp.force inp.fstruct inp.now
      arts (loadedState inp) inp.files 0 0).2.2.2.2 = .error e) :
    (runPull inp).disk = inp.disk := by
  simp [runPull, hl, herr]

theorem runPull_disk_of_loop_ok (inp : RunInput)
    (arts : List ArticleMetadata) (counts : Nat × Nat)
    (hl : inp.listResult = .ok arts) (hdry : inp.dryRun = false)
    (hok : (pullLoop inp.fetchFn inp.dryRun inp.force inp.fstruct inp.now
      arts (loadedState inp) inp.files 0 0).2.2.2.2 = .ok counts) :
    (runPull inp).disk =
      some (pullLoop inp.fetchFn inp.dryRun inp.force inp.fstruct inp.now
        arts (loadedState inp) inp.files 0 0).1 := by
  rw [hdry] at hok
  simp [runPull, hl, hok, hdry]

/-- C3: with force off, a listed article whose identity is already in
the loaded state is never passed to `fetch_article`; its existing local
path is available from the state for reporting, and on a successful run
the skipped count covers every such article. -/
theorem c3_dedup_never_fetches (inp : RunInput)
    (arts : List ArticleMetadata) (meta : ArticleMetadata) (p s : Nat)
    (hforce : inp.force = false)
    (hlist : inp.listResult = .ok arts)
    (hmem : meta ∈ arts)
    (hpulled : (loadedState inp).is_pulled meta.platform_id = true)
    (hok : (runPull inp).outcome = .ok (p, s)) :
    meta.id ∉ (runPull inp).fetchCalls ∧
    (∃ pth, (loadedState inp).get_local_path meta.platform_id = some pth) ∧
    (arts.filter
      (fun m => (loadedState inp).is_pulled m.platform_id)).length ≤ s := by
  have hpath : ∃ pth,
      (loadedState inp).get_local_path meta.platform_id = some pth := by
    simp only [PullState.is_pulled, Option.isSome_iff_exists] at hpulled
    obtain ⟨e, he⟩ := hpulled
    exact ⟨e.local_path, by simp [PullState.get_local_path, he]⟩
  have hloop : (pullLoop inp.fetchFn inp.dryRun inp.force inp.fstruct
      inp.now arts (loadedState inp) inp.files 0 0).2.2.2.2 = .ok (p, s) :=
    (runPull_outcome_eq inp arts hlist).symm.trans hok
  rw [hforce] at hloop
  refine ⟨?_, hpath, ?_⟩
  · rw [(runPull_fields inp arts hlist).1, hforce]
    exact pullLoop_not_fetched inp.fetchFn inp.dryRun inp.fstruct inp.now
      arts (loadedState inp) inp.files 0 0 meta.id
      (by rw [← platform_id_eq meta]; exact hpulled)
  · have hsc := pullLoop_skip_count inp.fetchFn inp.dryRun inp.fstruct
      inp.now (loadedState inp) arts (loadedState inp) inp.files 0 0
      (p, s) (fun _ h => h) hloop
    simpa using hsc

/-- Witness for C3: one listed article whose identity devto:1 is in the
loaded state; the run skips it. -/
theorem c3_dedup_never_fetches_witness :
    c3Input.force = false ∧
    c3Input.listResult = .ok [metaOne] ∧
    metaOne ∈ [metaOne] ∧
    (loadedState c3Input).is_pulled metaOne.platform_id = true ∧
    (runPull c3Input).outcome = .ok (0, 1) ∧
    (metaOne.id ∉ (runPull c3Input).fetchCalls ∧
     (∃ pth, (loadedState c3Input).get_local_path metaOne.platform_id
        = some pth) ∧
     ([metaOne].filter
       (fun m => (loadedState c3Input).is_pulled m.platform_id)).length
       ≤ 1) :=
  ⟨rfl, rfl, by simp, by decide, by rfl,
   c3_dedup_never_fetches c3Input [metaOne] metaOne 0 1 rfl rfl (by simp)
     (by decide) (by rfl)⟩

theorem write_article_marks (fstruct : FolderStructure)
    (article : PulledArticle) (st : PullState) (files : List String)
    (now : Nat) :
    (write_article false fstruct article st files now).2.1.is_pulled
      (article.platform.toStr ++ ":" ++ article.platform_id) = true := by
  simp only [write_article, Bool.false_eq_true, if_false]
  exact is_pulled_mark_self _ _ _ _

theorem is_pulled_mark_ne (st : PullState) (k2 key p : String) (now : Nat)
    (h : k2 ≠ key) :
    (st.mark_pulled k2 p now).is_pulled key = st.is_pulled key := by
  simp only [PullState.mark_pulled, PullState.is_pulled]
  rw [assocLookup_insert_ne _ _ _ _ h]

theorem write_article_preserves_not_pulled (dry : Bool)
    (fstruct : FolderStructure) (article : PulledArticle) (st : PullState)
    (files : List String) (now : Nat) (key : String)
    (hkey : article.platform.toStr ++ ":" ++ article.platform_id ≠ key)
    (h : st.is_pulled key = false) :
    (write_article dry fstruct article st files now).2.1.is_pulled key
      = false := by
  cases dry with
  | true => simpa [write_article] using h
  | false =>
      simp only [write_article, Bool.false_eq_true, if_false]
      rw [is_pulled_mark_ne _ _ _ _ _ hkey]
      exact h

theorem pullLoop_ok_marks (f : String → Except PullError PulledArticle)
    (force : Bool) (fstruct : FolderStructure) (now : Nat)
    (hcoh : ∀ id a, f id = .ok a → a.platform_id = id) :
    ∀ (arts : List ArticleMetadata) (st : PullState) (files : List String)
      (p k : Nat) (counts : Nat × Nat),
      (pullLoop f false force fstruct now arts st files p k).2.2.2.2
        = .ok counts →
      ∀ meta ∈ arts,
      (pullLoop f false force fstruct now arts st files p k).1.is_pulled
        meta.platform_id = true := by
  intro arts
  induction arts with
  | nil => intro st files p k counts _ meta hm; cases hm
  | cons m rest ih =>
      intro st files p k counts hok meta hm
      by_cases hc : (¬force = true ∧ st.is_pulled m.platform_id = true)
      · rw [pullLoop_cons_skip f false force fstruct now m rest st files
          p k hc] at hok ⊢
        rcases List.mem_cons.mp hm with he | hr
        · subst he
          exact pullLoop_state_mono f false force fstruct now rest st files
            p (k + 1) _ hc.2
        · exact ih st files p (k + 1) counts hok meta hr
      · cases hf : f m.id with
        | error e =>
            rw [pullLoop_cons_err f false force fstruct now m rest st files
              p k e hc hf] at hok
            cases hok
        | ok article =>
            rw [pullLoop_cons_ok f false force fstruct now m rest st files
              p k article hc hf] at hok ⊢
            have hmark : (write_article false fstruct article st files
                now).2.1.is_pulled m.platform_id = true := by
              have hkey : article.platform.toStr ++ ":" ++ article.platform_id
                  = m.platform_id := by
                rw [hcoh m.id article hf, platform_toStr, platform_id_eq m]
                rfl
              have := write_article_marks fstruct article st files now
              rw [hkey] at this
              exact this
            rcases List.mem_cons.mp hm with he | hr
            · subst he
              exact pullLoop_state_mono f false force fstruct now rest
                (write_article false fstruct article st files now).2.1
                (write_article false fstruct article st files now).2.2
                (p + 1) k _ hmark
            · exact ih (write_article false fstruct article st files now).2.1
                (write_article false fstruct article st files now).2.2
                (p + 1) k counts hok meta hr

theorem pullLoop_all_pulled (f : String → Except PullError PulledArticle)
    (dry : Bool) (fstruct : FolderStructure) (now : Nat) :
    ∀ (arts : List ArticleMetadata) (st : PullState) (files : List String)
      (p k : Nat),
      (∀ m ∈ arts, st.is_pulled m.platform_id = true) →
      pullLoop f dry false fstruct now arts st files p k =
        (st, files, [], [], .ok (p, k + arts.length)) := by
  intro arts
  induction arts with
  | nil => intro st files p k _; rw [pullLoop_nil]; rfl
  | cons m rest ih =>
      intro st files p k hall
      have hp : st.is_pulled m.platform_id = true := hall m (by simp)
      rw [pullLoop_cons_skip f dry false fstruct now m rest st files p k
        ⟨by simp, hp⟩]
      rw [ih st files p (k + 1) (fun x hx => hall x (by simp [hx]))]
      have harith : k + 1 + rest.length = k + (rest.length + 1) := by omega
      rw [harith]
      simp

/-- C4: if a non-forced, non-dry run over a listing succeeds, then a
second run over the identical inputs, starting from the filesystem the
first run produced, issues zero `fetch_article` calls and reports every
listed article as skipped: counts (0, length). -/
theorem c4_second_run_all_skipped (inp : RunInput)
    (arts : List ArticleMetadata) (p s : Nat)
    (hforce : inp.force = false) (hdry : inp.dryRun = false)
    (hlist : inp.listResult = .ok arts)
    (hcoh : ∀ id a, inp.fetchFn id = .ok a → a.platform_id = id)
    (hok : (runPull inp).outcome = .ok (p, s)) :
    (runPull { inp with disk := (runPull inp).disk,
                        files := (runPull inp).files }).fetchCalls = [] ∧
    (runPull { inp with disk := (runPull inp).disk,
                        files := (runPull inp).files }).outcome =
      .ok (0, arts.length) := by
  have hloop : (pullLoop inp.fetchFn inp.dryRun inp.force inp.fstruct
      inp.now arts (loadedState inp) inp.files 0 0).2.2.2.2 = .ok (p, s) :=
    (runPull_outcome_eq inp arts hlist).symm.trans hok
  have hdisk := runPull_disk_of_loop_ok inp arts (p, s) hlist hdry hloop
  rw [hdry, hforce] at hloop hdisk
  have hall : ∀ m ∈ arts,
      (pullLoop inp.fetchFn false false inp.fstruct inp.now arts
        (loadedState inp) inp.files 0 0).1.is_pulled m.platform_id
        = true := by
    intro m hm
    exact pullLoop_ok_marks inp.fetchFn false inp.fstruct inp.now hcoh arts
      (loadedState inp) inp.files 0 0 (p, s) hloop m hm
  set inp2 : RunInput := { inp with disk := (runPull inp).disk,
                                    files := (runPull inp).files }
    with hinp2
  have hl2 : inp2.listResult = .ok arts := by simp [hinp2, hlist]
  have hforce2 : inp2.force = false := by simp [hinp2, hforce]
  have hdry2 : inp2.dryRun = false := by simp [hinp2, hdry]
  have hls2 : loadedState inp2 =
      (pullLoop inp.fetchFn false false inp.fstruct inp.now arts
        (loadedState inp) inp.files 0 0).1 := by
    simp [loadedState, hinp2, hdry, hdisk, PullState.load]
  have hall2 : ∀ m ∈ arts,
      (loadedState inp2).is_pulled m.platform_id = true := by
    intro m hm
    rw [hls2]
    exact hall m hm
  constructor
  · rw [(runPull_fields inp2 arts hl2).1, hforce2]
    rw [pullLoop_all_pulled inp2.fetchFn inp2.dryRun inp2.fstruct inp2.now
      arts (loadedState inp2) inp2.files 0 0 hall2]
  · rw [runPull_outcome_eq inp2 arts hl2, hforce2]
    rw [pullLoop_all_pulled inp2.fetchFn inp2.dryRun inp2.fstruct inp2.now
      arts (loadedState inp2) inp2.files 0 0 hall2]
    simp

/-- Witness for C4 at a concrete run that pulls two articles and is then
repeated. -/
theorem c4_second_run_all_skipped_witness :
    c4Input.force = false ∧ c4Input.dryRun = false ∧
    c4Input.listResult = .ok [metaOne, metaTwo] ∧
    (runPull c4Input).outcome = .ok (2, 0) ∧
    ((runPull { c4Input with disk := (runPull c4Input).disk,
                             files := (runPull c4Input).files }).fetchCalls
       = [] ∧
     (runPull { c4Input with disk := (runPull c4Input).disk,
                             files := (runPull c4Input).files }).outcome =
       .ok (0, [metaOne, metaTwo].length)) :=
  ⟨rfl, rfl, rfl, by rfl,
   c4_second_run_all_skipped c4Input [metaOne, metaTwo] 2 0 rfl rfl rfl
     (fun id a h => by cases h; rfl) (by rfl)⟩

theorem pullLoop_dry_all_ok (f : String → Except PullError PulledArticle)
    (force : Bool) (fstruct : FolderStructure) (now : Nat) :
    ∀ (arts : List ArticleMetadata) (st : PullState) (files : List String)
      (p k : Nat),
      (∀ m ∈ arts, st.is_pulled m.platform_id = false) →
      (∀ m ∈ arts, (f m.id).isOk = true) →
      (pullLoop f true force fstruct now arts st files p k).2.2.1 =
        arts.map (fun m => m.id) ∧
      (pullLoop f true force fstruct now arts st files p k).2.2.2.2 =
        .ok (p + arts.length, k) := by
  intro arts
  induction arts with
  | nil => intro st files p k _ _; rw [pullLoop_nil]; exact ⟨rfl, rfl⟩
  | cons m rest ih =>
      intro st files p k hnp hfok
      have hc : ¬(¬force = true ∧ st.is_pulled m.platform_id = true) := by
        intro hx
        rw [hnp m (by simp)] at hx
        exact absurd hx.2 (by simp)
      have hOk := hfok m (by simp)
      cases hf : f m.id with
      | error e => rw [hf] at hOk; simp [Except.isOk, Except.toBool] at hOk
      | ok article =>
          rw [pullLoop_cons_ok f true force fstruct now m rest st files p k
            article hc hf]
          have hw := write_article_dry fstruct article st files now
          rw [hw.1, hw.2]
          have hrec := ih st files (p + 1) k
            (fun x hx => hnp x (by simp [hx]))
            (fun x hx => hfok x (by simp [hx]))
          refine ⟨?_, ?_⟩
          · show m.id :: (pullLoop f true force fstruct now rest st files
                (p + 1) k).2.2.1 = (m :: rest).map (fun m => m.id)
            rw [hrec.1]
            rfl
          · show (pullLoop f true force fstruct now rest st files
                (p + 1) k).2.2.2.2 = .ok (p + (m :: rest).length, k)
            rw [hrec.2]
            have harith : p + 1 + rest.length = p + (m :: rest).length := by
              simp [List.length_cons]
              omega
            rw [harith]

/-- C9: a dry run starts from the default (empty) in-memory state
rather than the loaded one, so with all fetches succeeding every listed
article — whatever the persisted record holds and for any force flag —
is fetched and counted as pulled, with skipped count 0. -/
theorem c9_dry_run_ignores_saved_state (inp : RunInput)
    (arts : List ArticleMetadata)
    (hdry : inp.dryRun = true)
    (hlist : inp.listResult = .ok arts)
    (hfetch : ∀ m ∈ arts, (inp.fetchFn m.id).isOk = true) :
    loadedState inp = PullState.empty ∧
    (runPull inp).fetchCalls = arts.map (fun m => m.id) ∧
    (runPull inp).outcome = .ok (arts.length, 0) := by
  have hstate : loadedState inp = PullState.empty := by
    simp [loadedState, hdry]
  have hall : ∀ m ∈ arts,
      (loadedState inp).is_pulled m.platform_id = false := by
    intro m _
    rw [hstate]
    exact is_pulled_empty _
  have hl := pullLoop_dry_all_ok inp.fetchFn inp.force inp.fstruct inp.now
    arts (loadedState inp) inp.files 0 0 hall hfetch
  refine ⟨hstate, ?_, ?_⟩
  · rw [(runPull_fields inp arts hlist).1, hdry]
    exact hl.1
  · rw [runPull_outcome_eq inp arts hlist, hdry, hl.2]
    simp

/-- Witness for C9: a dry run over two articles on top of a persisted
record that already holds both identities. -/
theorem c9_dry_run_ignores_saved_state_witness :
    c9Input.dryRun = true ∧
    c9Input.listResult = .ok [metaOne, metaTwo] ∧
    (loadedState c9Input = PullState.empty ∧
     (runPull c9Input).fetchCalls = [metaOne, metaTwo].map (fun m => m.id) ∧
     (runPull c9Input).outcome = .ok ([metaOne, metaTwo].length, 0)) :=
  ⟨rfl, rfl,
   c9_dry_run_ignores_saved_state c9Input [metaOne, metaTwo] rfl rfl
     (fun m _ => rfl)⟩

theorem pullLoop_calls_le (f : String → Except PullError PulledArticle)
    (dry force : Bool) (fstruct : FolderStructure) (now : Nat) :
    ∀ (arts : List ArticleMetadata) (st : PullState) (files : List String)
      (p k : Nat),
      (pullLoop f dry force fstruct now arts st files p k).2.2.1.length ≤
        arts.length := by
  intro arts
  induction arts with
  | nil => intro st files p k; simp [pullLoop_nil]
  | cons m rest ih =>
      intro st files p k
      by_cases hc : (¬force = true ∧ st.is_pulled m.platform_id = true)
      · rw [pullLoop_cons_skip f dry force fstruct now m rest st files
          p k hc]
        have := ih st files p (k + 1)
        simp only [List.length_cons]
        omega
      · cases hf : f m.id with
        | error e =>
            rw [pullLoop_cons_err f dry force fstruct now m rest st files
              p k e hc hf]
            simp
        | ok article =>
            rw [pullLoop_cons_ok f dry force fstruct now m rest st files
              p k article hc hf]
            show (m.id :: _).length ≤ (m :: rest).length
            simp only [List.length_cons]
            exact Nat.succ_le_succ (ih _ _ (p + 1) k)

theorem pullLoop_prefix_error (f : String → Except PullError PulledArticle)
    (dry force : Bool) (fstruct : FolderStructure) (now : Nat)
    (hcoh : ∀ id a, f id = .ok a → a.platform_id = id) :
    ∀ (pre : List ArticleMetadata) (meta : ArticleMetadata)
      (post : List ArticleMetadata) (st : PullState) (files : List String)
      (p k : Nat) (e : PullError),
      (∀ m ∈ pre, (f m.id).isOk = true) →
      (∀ m ∈ pre, m.id ≠ meta.id) →
      st.is_pulled meta.platform_id = false →
      f meta.id = .error e →
      (pullLoop f dry force fstruct now (pre ++ meta :: post) st files
        p k).2.2.2.2 = .error e := by
  intro pre
  induction pre with
  | nil =>
      intro meta post st files p k e _ _ hnp hf
      have hc : ¬(¬force = true ∧ st.is_pulled meta.platform_id = true) := by
        intro hx
        rw [hnp] at hx
        exact absurd hx.2 (by simp)
      rw [List.nil_append, pullLoop_cons_err f dry force fstruct now meta
        post st files p k e hc hf]
  | cons m rest ih =>
      intro meta post st files p k e hpre hne hnp hf
      by_cases hc : (¬force = true ∧ st.is_pulled m.platform_id = true)
      · rw [List.cons_append, pullLoop_cons_skip f dry force fstruct now m
          (rest ++ meta :: post) st files p k hc]
        exact ih meta post st files p (k + 1) e
          (fun x hx => hpre x (by simp [hx]))
          (fun x hx => hne x (by simp [hx])) hnp hf
      · have hOk := hpre m (by simp)
        cases hfm : f m.id with
        | error e2 => rw [hfm] at hOk; simp [Except.isOk, Except.toBool] at hOk
        | ok article =>
            rw [List.cons_append, pullLoop_cons_ok f dry force fstruct now m
              (rest ++ meta :: post) st files p k article hc hfm]
            have hkey : article.platform.toStr ++ ":" ++ article.platform_id
                ≠ meta.platform_id := by
              rw [hcoh m.id article hfm, platform_toStr, platform_id_eq meta]
              intro hx
              have hx2 : ("devto" ++ ":") ++ m.id =
                  ("devto" ++ ":") ++ meta.id := by
                simpa [String.append_assoc] using hx
              exact hne m (by simp)
                (string_append_left_cancel _ _ _ hx2)
            have hnp2 := write_article_preserves_not_pulled dry fstruct
              article st files now meta.platform_id hkey hnp
            exact ih meta post
              (write_article dry fstruct article st files now).2.1
              (write_article dry fstruct article st files now).2.2
              (p + 1) k e (fun x hx => hpre x (by simp [hx]))
              (fun x hx => hne x (by simp [hx])) hnp2 hf

/-- C8: a 429 response during listing maps to a fatal
RateLimited(retry-after) at the adapter; a 429 hit by the fetch of an
article whose turn is reached makes the whole run abort with that
RateLimited error, without saving state and with at most one fetch call
per listed article (no sleep-and-retry); and a listing-phase error is
returned as the run's outcome with no fetch calls and no state save. -/
theorem c8_rate_limited_fatal (inp : RunInput)
    (arts pre post : List ArticleMetadata) (meta : ArticleMetadata)
    (resp : HttpResponse)
    (parsedPage : Except PullError (List DevToArticleListItem))
    (parsedArt : Except PullError DevToArticle)
    (hstatus : resp.status = 429)
    (hlist : inp.listResult = .ok arts)
    (hsplit : arts = pre ++ meta :: post)
    (hpre : ∀ m ∈ pre, (inp.fetchFn m.id).isOk = true)
    (hne : ∀ m ∈ pre, m.id ≠ meta.id)
    (hcoh : ∀ id a, inp.fetchFn id = .ok a → a.platform_id = id)
    (hnp : (loadedState inp).is_pulled meta.platform_id = false)
    (hfetch : inp.fetchFn meta.id = fetchArticleHttp resp parsedArt meta.id) :
    fetch_page_result resp parsedPage
      = .error (.RateLimited (retryAfterOf resp)) ∧
    inp.fetchFn meta.id = .error (.RateLimited (retryAfterOf resp)) ∧
    (runPull inp).outcome = .error (.RateLimited (retryAfterOf resp)) ∧
    (runPull inp).disk = inp.disk ∧
    (runPull inp).fetchCalls.length ≤ arts.length ∧
    (∀ (inp2 : RunInput) (e : PullError), inp2.listResult = .error e →
      (runPull inp2).outcome = .error e ∧ (runPull inp2).fetchCalls = [] ∧
      (runPull inp2).disk = inp2.disk) := by
  have hfetch429 : inp.fetchFn meta.id
      = .error (.RateLimited (retryAfterOf resp)) := by
    rw [hfetch]
    simp [fetchArticleHttp, hstatus]
  have hloop : (pullLoop inp.fetchFn inp.dryRun inp.force inp.fstruct
      inp.now arts (loadedState inp) inp.files 0 0).2.2.2.2 =
      .error (.RateLimited (retryAfterOf resp)) := by
    rw [hsplit]
    exact pullLoop_prefix_error inp.fetchFn inp.dryRun inp.force inp.fstruct
      inp.now hcoh pre meta post (loadedState inp) inp.files 0 0 _
      hpre hne hnp hfetch429
  refine ⟨by simp [fetch_page_result, hstatus], hfetch429, ?_, ?_, ?_, ?_⟩
  · rw [runPull_outcome_eq inp arts hlist]
    exact hloop
  · exact runPull_disk_of_loop_error inp arts _ hlist hloop
  · rw [(runPull_fields inp arts hlist).1]
    exact pullLoop_calls_le inp.fetchFn inp.dryRun inp.force inp.fstruct
      inp.now arts (loadedState inp) inp.files 0 0
  · intro inp2 e hl2
    refine ⟨?_, ?_, ?_⟩ <;> simp [runPull, hl2]

/-- Witness for C8: a single-article run whose fetch goes through the
adapter's HTTP path and receives a 429 with retry-after 17. -/
theorem c8_rate_limited_fatal_witness :
    resp429.status = 429 ∧
    c8Input.listResult = .ok [metaOne] ∧
    (loadedState c8Input).is_pulled metaOne.platform_id = false ∧
    (fetch_page_result resp429 (.ok [])
       = .error (.RateLimited (retryAfterOf resp429)) ∧
     c8Input.fetchFn metaOne.id
       = .error (.RateLimited (retryAfterOf resp429)) ∧
     (runPull c8Input).outcome
       = .error (.RateLimited (retryAfterOf resp429)) ∧
     (runPull c8Input).disk = c8Input.disk ∧
     (runPull c8Input).fetchCalls.length ≤ [metaOne].length ∧
     (∀ (inp2 : RunInput) (e : PullError), inp2.listResult = .error e →
       (runPull inp2).outcome = .error e ∧ (runPull inp2).fetchCalls = [] ∧
       (runPull inp2).disk = inp2.disk)) :=
  ⟨rfl, rfl, by decide,
   c8_rate_limited_fatal c8Input [metaOne] [] [] metaOne resp429 (.ok [])
     (.error (.Api "x")) rfl rfl rfl (by simp) (by simp)
     (fun id a h => by
       simp [c8Input, c1Input, fetchArticleHttp, resp429, retryAfterOf] at h)
     (by decide) rfl⟩

theorem NaiveDate.lt_irrefl (a : NaiveDate) : NaiveDate.lt a a = false := by
  simp [NaiveDate.lt]

theorem processPage_cons_true (opts : PullOptions)
    (item : DevToArticleListItem) (rest : List DevToArticleListItem)
    (cache : DevToCache) (hs : survives opts item = true) :
    processPage opts (item :: rest) cache =
      (itemToMeta item ::
         (processPage opts rest
           (assocInsert cache (Nat.repr item.id) item)).1,
       (processPage opts rest
         (assocInsert cache (Nat.repr item.id) item)).2) := by
  simp only [processPage, hs, if_true]

theorem processPage_cons_false (opts : PullOptions)
    (item : DevToArticleListItem) (rest : List DevToArticleListItem)
    (cache : DevToCache) (hs : survives opts item = false) :
    processPage opts (item :: rest) cache = processPage opts rest cache := by
  simp only [processPage, hs, Bool.false_eq_true, if_false]

theorem processPage_metas (opts : PullOptions) :
    ∀ (items : List DevToArticleListItem) (cache : DevToCache),
      (processPage opts items cache).1 =
        (items.filter (survives opts)).map itemToMeta := by
  intro items
  induction items with
  | nil => intro cache; rfl
  | cons item rest ih =>
      intro cache
      by_cases hs : survives opts item = true
      · rw [processPage_cons_true opts item rest cache hs]
        simp [List.filter_cons, hs, ih]
      · have hs2 : survives opts item = false := by
          rw [Bool.eq_false_iff]; exact hs
        rw [processPage_cons_false opts item rest cache hs2]
        simp [List.filter_cons, hs2, ih]

/-- C5: with a minimum date set, an item whose publish date equals the
minimum passes the date filter; one whose calendar date is strictly
before the minimum fails it; an item with no publish date always passes
the date filter; the decision depends only on the calendar date, not
the time-of-day; and the listing page output is exactly the
filter-surviving items in order. -/
theorem c5_date_filter_boundary (opts : PullOptions) (d : NaiveDate)
    (t : UtcDateTime) :
    (opts.since = some d → t.dateNaive = d →
       passesDateFilter opts.since (some t) = true) ∧
    (opts.since = some d → NaiveDate.lt t.dateNaive d = true →
       passesDateFilter opts.since (some t) = false) ∧
    passesDateFilter opts.since none = true ∧
    (∀ t2 : UtcDateTime, t2.dateNaive = t.dateNaive →
       passesDateFilter opts.since (some t2) =
         passesDateFilter opts.since (some t)) ∧
    (∀ (items : List DevToArticleListItem) (cache : DevToCache),
       (processPage opts items cache).1 =
         (items.filter (survives opts)).map itemToMeta) := by
  refine ⟨?_, ?_, ?_, ?_, fun items cache => processPage_metas opts items cache⟩
  · intro h1 h2
    rw [h1]
    simp [passesDateFilter, h2, NaiveDate.lt_irrefl]
  · intro h1 h2
    rw [h1]
    simp [passesDateFilter, h2]
  · cases hs : opts.since <;> simp [passesDateFilter]
  · intro t2 ht
    cases hs : opts.since with
    | none => simp [passesDateFilter]
    | some s => simp [passesDateFilter, ht]

/-- Witness for C5 on 2024-01-01 as the minimum date: an item published
that day passes, one published 2023-12-31 fails, an undated one passes,
and a same-date different-time item decides identically. -/
theorem c5_date_filter_boundary_witness :
    ((⟨some ⟨2024, 1, 1⟩, true⟩ : PullOptions).since = some ⟨2024, 1, 1⟩ ∧
     (⟨⟨2024, 1, 1⟩, 5⟩ : UtcDateTime).dateNaive = ⟨2024, 1, 1⟩ ∧
     NaiveDate.lt (⟨⟨2023, 12, 31⟩, 5⟩ : UtcDateTime).dateNaive
       ⟨2024, 1, 1⟩ = true) ∧
    passesDateFilter (some ⟨2024, 1, 1⟩) (some ⟨⟨2024, 1, 1⟩, 5⟩) = true ∧
    passesDateFilter (some ⟨2024, 1, 1⟩) (some ⟨⟨2023, 12, 31⟩, 5⟩)
      = false ∧
    passesDateFilter (some ⟨2024, 1, 1⟩) none = true ∧
    passesDateFilter (some ⟨2024, 1, 1⟩) (some ⟨⟨2024, 1, 1⟩, 86399⟩) =
      passesDateFilter (some ⟨2024, 1, 1⟩) (some ⟨⟨2024, 1, 1⟩, 5⟩) ∧
    (processPage (⟨some ⟨2024, 1, 1⟩, true⟩ : PullOptions) [sampleItem]
        []).1 =
      ([sampleItem].filter
        (survives (⟨some ⟨2024, 1, 1⟩, true⟩ : PullOptions))).map
          itemToMeta :=
  ⟨⟨rfl, rfl, by decide⟩,
   (c5_date_filter_boundary ⟨some ⟨2024, 1, 1⟩, true⟩ ⟨2024, 1, 1⟩
      ⟨⟨2024, 1, 1⟩, 5⟩).1 rfl rfl,
   (c5_date_filter_boundary ⟨some ⟨2024, 1, 1⟩, true⟩ ⟨2024, 1, 1⟩
      ⟨⟨2023, 12, 31⟩, 5⟩).2.1 rfl (by decide),
   (c5_date_filter_boundary ⟨some ⟨2024, 1, 1⟩, true⟩ ⟨2024, 1, 1⟩
      ⟨⟨2024, 1, 1⟩, 5⟩).2.2.1,
   (c5_date_filter_boundary ⟨some ⟨2024, 1, 1⟩, true⟩ ⟨2024, 1, 1⟩
      ⟨⟨2024, 1, 1⟩, 5⟩).2.2.2.1 ⟨⟨2024, 1, 1⟩, 86399⟩ rfl,
   (c5_date_filter_boundary ⟨some ⟨2024, 1, 1⟩, true⟩ ⟨2024, 1, 1⟩
      ⟨⟨2024, 1, 1⟩, 5⟩).2.2.2.2 [sampleItem] []⟩

theorem listLoop_succ_short (pageFn : Nat → List DevToArticleListItem)
    (opts : PullOptions) (fuel page : Nat) (cache : DevToCache)
    (h : (pageFn page).length < PER_PAGE) :
    listLoop pageFn opts (fuel + 1) page cache =
      some ([page], (processPage opts (pageFn page) cache).1,
        (processPage opts (pageFn page) cache).2) := by
  simp only [listLoop]
  rw [if_pos h]

theorem listLoop_succ_long (pageFn : Nat → List DevToArticleListItem)
    (opts : PullOptions) (fuel page : Nat) (cache : DevToCache)
    (h : ¬(pageFn page).length < PER_PAGE) :
    listLoop pageFn opts (fuel + 1) page cache =
      match listLoop pageFn opts fuel (page + 1)
          (processPage opts (pageFn page) cache).2 with
      | none => none
      | some (calls, metas, cache2) =>
          some (page :: calls,
            (processPage opts (pageFn page) cache).1 ++ metas, cache2) := by
  simp only [listLoop]
  rw [if_neg h]

theorem listLoop_long_step (pageFn : Nat → List DevToArticleListItem)
    (opts : PullOptions) (fuel page : Nat) (cache : DevToCache)
    {calls : List Nat} {metas : List ArticleMetadata} {cache2 : DevToCache}
    (h : ¬(pageFn page).length < PER_PAGE)
    (hrec : listLoop pageFn opts fuel (page + 1)
        (processPage opts (pageFn page) cache).2
      = some (calls, metas, cache2)) :
    listLoop pageFn opts (fuel + 1) page cache =
      some (page :: calls,
        (processPage opts (pageFn page) cache).1 ++ metas, cache2) := by
  rw [listLoop_succ_long pageFn opts fuel page cache h, hrec]

theorem listLoop_calls_spec (pageFn : Nat → List DevToArticleListItem)
    (opts : PullOptions) :
    ∀ (fuel page : Nat) (cache : DevToCache) (calls : List Nat)
      (metas : List ArticleMetadata) (cache2 : DevToCache),
      listLoop pageFn opts fuel page cache = some (calls, metas, cache2) →
      ∃ n, calls = List.range' page n ∧ 0 < n ∧
        (∀ j, j + 1 < n → ¬(pageFn (page + j)).length < PER_PAGE) ∧
        (pageFn (page + (n - 1))).length < PER_PAGE := by
  intro fuel
  induction fuel with
  | zero => intro page cache calls metas cache2 h; cases h
  | succ fuel ih =>
      intro page cache calls metas cache2 h
      by_cases hshort : (pageFn page).length < PER_PAGE
      · rw [listLoop_succ_short pageFn opts fuel page cache hshort] at h
        simp only [Option.some.injEq, Prod.mk.injEq] at h
        obtain ⟨hc, _, _⟩ := h
        refine ⟨1, by rw [← hc]; rfl, by omega, by omega, ?_⟩
        have hp : page + (1 - 1) = page := by omega
        rw [hp]
        exact hshort
      · rw [listLoop_succ_long pageFn opts fuel page cache hshort] at h
        cases hrec : listLoop pageFn opts fuel (page + 1)
            (processPage opts (pageFn page) cache).2 with
        | none => rw [hrec] at h; cases h
        | some trip =>
            obtain ⟨calls1, metas1, c1⟩ := trip
            rw [hrec] at h
            simp only [Option.some.injEq, Prod.mk.injEq] at h
            obtain ⟨hc, _, _⟩ := h
            obtain ⟨n, hn, hpos, hmid, hlast⟩ :=
              ih (page + 1) _ calls1 metas1 c1 hrec
            refine ⟨n + 1, ?_, by omega, ?_, ?_⟩
            · rw [← hc, hn, List.range'_succ]
            · intro j hj
              match j with
              | 0 =>
                  have hp : page + 0 = page := by omega
                  rw [hp]
                  exact hshort
              | j2 + 1 =>
                  have hp : page + (j2 + 1) = (page + 1) + j2 := by omega
                  rw [hp]
                  exact hmid j2 (by omega)
            · have hp : page + (n + 1 - 1) = (page + 1) + (n - 1) := by
                omega
              rw [hp]
              exact hlast

/-- C6: the pagination loop requests pages sequentially from page 1 and
stops exactly at the first page shorter than the fixed page size 100:
in general the requested pages form the contiguous range 1..n whose
non-final pages are full and whose final page is short, and for page
sizes [100, 100, 37] exactly pages [1, 2, 3] are requested. -/
theorem c6_pagination_terminates (pageFn : Nat → List DevToArticleListItem)
    (opts : PullOptions) (fuel : Nat)
    (h1 : (pageFn 1).length = 100) (h2 : (pageFn 2).length = 100)
    (h3 : (pageFn 3).length = 37) (hfuel : 3 ≤ fuel) :
    (∃ metas cache, list_articles pageFn opts fuel
       = some ([1, 2, 3], metas, cache)) ∧
    (∀ (fuel2 page : Nat) (cache0 : DevToCache) (calls : List Nat)
       (metas : List ArticleMetadata) (cache2 : DevToCache),
       listLoop pageFn opts fuel2 page cache0
         = some (calls, metas, cache2) →
       ∃ n, calls = List.range' page n ∧ 0 < n ∧
         (∀ j, j + 1 < n → ¬(pageFn (page + j)).length < PER_PAGE) ∧
         (pageFn (page + (n - 1))).length < PER_PAGE) := by
  have hs1 : ¬(pageFn 1).length < PER_PAGE := by simp [PER_PAGE, h1]
  have hs2 : ¬(pageFn 2).length < PER_PAGE := by simp [PER_PAGE, h2]
  have hs3 : (pageFn 3).length < PER_PAGE := by simp [PER_PAGE, h3]
  refine ⟨?_, fun fuel2 page cache0 calls metas cache2 hc =>
    listLoop_calls_spec pageFn opts fuel2 page cache0 calls metas cache2 hc⟩
  obtain ⟨k, rfl⟩ : ∃ k, fuel = k + 3 := ⟨fuel - 3, by omega⟩
  have h3s := listLoop_succ_short pageFn opts k 3
    ((processPage opts (pageFn 2)
      ((processPage opts (pageFn 1) ([] : DevToCache)).2)).2) hs3
  have h2s := listLoop_long_step pageFn opts (k + 1) 2
    ((processPage opts (pageFn 1) ([] : DevToCache)).2) hs2 h3s
  have h1s := listLoop_long_step pageFn opts (k + 1 + 1) 1
    ([] : DevToCache) hs1 h2s
  exact ⟨_, _, h1s⟩

/-- Witness for C6 at a concrete page function serving 100, 100 and 37
items with fuel 5. -/
theorem c6_pagination_terminates_witness :
    ((pageFnC6 1).length = 100 ∧ (pageFnC6 2).length = 100 ∧
     (pageFnC6 3).length = 37 ∧ 3 ≤ 5) ∧
    (∃ metas cache,
      list_articles pageFnC6 ⟨none, true⟩ 5 = some ([1, 2, 3], metas, cache)) :=
  ⟨⟨rfl, rfl, rfl, by omega⟩,
   (c6_pagination_terminates pageFnC6 ⟨none, true⟩ 5 rfl rfl rfl
     (by omega)).1⟩

theorem processPage_cache_mono (opts : PullOptions) :
    ∀ (items : List DevToArticleListItem) (cache : DevToCache)
      (key : String),
      (assocLookup cache key).isSome = true →
      (assocLookup (processPage opts items cache).2 key).isSome = true := by
  intro items
  induction items with
  | nil => intro cache key h; exact h
  | cons item rest ih =>
      intro cache key h
      by_cases hs : survives opts item = true
      · rw [processPage_cons_true opts item rest cache hs]
        exact ih _ key (assocLookup_insert_isSome _ _ _ _ h)
      · rw [processPage_cons_false opts item rest cache
          (Bool.eq_false_iff.mpr hs)]
        exact ih cache key h

theorem processPage_cache_mem (opts : PullOptions) :
    ∀ (items : List DevToArticleListItem) (cache : DevToCache)
      (m : ArticleMetadata),
      m ∈ (processPage opts items cache).1 →
      (assocLookup (processPage opts items cache).2 m.id).isSome = true := by
  intro items
  induction items with
  | nil => intro cache m hm; cases hm
  | cons item rest ih =>
      intro cache m hm
      by_cases hs : survives opts item = true
      · rw [processPage_cons_true opts item rest cache hs] at hm ⊢
        rcases List.mem_cons.mp hm with he | hr
        · subst he
          exact processPage_cache_mono opts rest _ _
            (by simp [itemToMeta, assocLookup_insert_self])
        · exact ih _ m hr
      · rw [processPage_cons_false opts item rest cache
          (Bool.eq_false_iff.mpr hs)] at hm ⊢
        exact ih cache m hm

theorem listLoop_metas_cached (pageFn : Nat → List DevToArticleListItem)
    (opts : PullOptions) :
    ∀ (fuel page : Nat) (cache : DevToCache) (calls : List Nat)
      (metas : List ArticleMetadata) (cache2 : DevToCache),
      listLoop pageFn opts fuel page cache = some (calls, metas, cache2) →
      (∀ key, (assocLookup cache key).isSome = true →
         (assocLookup cache2 key).isSome = true) ∧
      (∀ m ∈ metas, (assocLookup cache2 m.id).isSome = true) := by
  intro fuel
  induction fuel with
  | zero => intro page cache calls metas cache2 h; cases h
  | succ fuel ih =>
      intro page cache calls metas cache2 h
      by_cases hshort : (pageFn page).length < PER_PAGE
      · rw [listLoop_succ_short pageFn opts fuel page cache hshort] at h
        simp only [Option.some.injEq, Prod.mk.injEq] at h
        obtain ⟨_, hme, hca⟩ := h
        constructor
        · intro key hk
          rw [← hca]
          exact processPage_cache_mono opts _ cache key hk
        · intro m hm
          rw [← hme] at hm
          rw [← hca]
          exact processPage_cache_mem opts _ cache m hm
      · rw [listLoop_succ_long pageFn opts fuel page cache hshort] at h
        cases hrec : listLoop pageFn opts fuel (page + 1)
            (processPage opts (pageFn page) cache).2 with
        | none => rw [hrec] at h; cases h
        | some trip =>
            obtain ⟨calls1, metas1, c1⟩ := trip
            rw [hrec] at h
            simp only [Option.some.injEq, Prod.mk.injEq] at h
            obtain ⟨_, hme, hca⟩ := h
            obtain ⟨ihmono, ihmem⟩ := ih (page + 1) _ calls1 metas1 c1 hrec
            constructor
            · intro key hk
              rw [← hca]
              exact ihmono key (processPage_cache_mono opts _ cache key hk)
            · intro m hm
              rw [← hme] at hm
              rw [← hca]
              rcases List.mem_append.mp hm with hp | hp
              · exact ihmono m.id (processPage_cache_mem opts _ cache m hp)
              · exact ihmem m hp

theorem devtoFetch_cached (cache : DevToCache)
    (http : String → HttpResponse × Except PullError DevToArticle)
    (id : String) (item : DevToArticleListItem)
    (h : assocLookup cache id = some item) :
    devtoFetchArticle cache http id = (.ok (cachedToPulled item), false) := by
  simp [devtoFetchArticle, h]

theorem pullLoop_written_series (cache : DevToCache)
    (http : String → HttpResponse × Except PullError DevToArticle)
    (dry force : Bool) (fstruct : FolderStructure) (now : Nat) :
    ∀ (arts : List ArticleMetadata) (st : PullState) (files : List String)
      (p k : Nat),
      (∀ m ∈ arts, (assocLookup cache m.id).isSome = true) →
      ∀ a ∈ (pullLoop (fun id => (devtoFetchArticle cache http id).1) dry
          force fstruct now arts st files p k).2.2.2.1, a.series = none := by
  intro arts
  induction arts with
  | nil => intro st files p k _ a ha; rw [pullLoop_nil] at ha; cases ha
  | cons m rest ih =>
      intro st files p k hall a ha
      by_cases hc : (¬force = true ∧ st.is_pulled m.platform_id = true)
      · rw [pullLoop_cons_skip _ dry force fstruct now m rest st files
          p k hc] at ha
        exact ih st files p (k + 1) (fun x hx => hall x (by simp [hx])) a ha
      · obtain ⟨item, hitem⟩ :=
          Option.isSome_iff_exists.mp (hall m (by simp))
        have hfm : (fun id => (devtoFetchArticle cache http id).1) m.id
            = .ok (cachedToPulled item) := by
          simp [devtoFetch_cached cache http m.id item hitem]
        rw [pullLoop_cons_ok _ dry force fstruct now m rest st files p k
          _ hc hfm] at ha
        rcases List.mem_cons.mp ha with he | hr
        · subst he; rfl
        · exact ih _ _ (p + 1) k (fun x hx => hall x (by simp [hx])) a hr

/-- C10: every filter-surviving listed article is present in the
adapter's in-run cache, so a later `fetch_article` for its id is
answered from the cache with no HTTP request and yields an article
whose series is None; consequently every article a run over that
listing hands to the sink has series None. -/
theorem c10_cache_fetch_series_none (inp : RunInput)
    (pageFn : Nat → List DevToArticleListItem) (opts : PullOptions)
    (fuel : Nat) (calls : List Nat) (arts : List ArticleMetadata)
    (cache : DevToCache)
    (http : String → HttpResponse × Except PullError DevToArticle)
    (hla : list_articles pageFn opts fuel = some (calls, arts, cache))
    (hlist : inp.listResult = .ok arts)
    (hfetch : inp.fetchFn = fun id => (devtoFetchArticle cache http id).1) :
    (∀ m ∈ arts, ∃ item, assocLookup cache m.id = some item ∧
       devtoFetchArticle cache http m.id
         = (.ok (cachedToPulled item), false) ∧
       (cachedToPulled item).series = none) ∧
    (∀ a ∈ (runPull inp).written, a.series = none) := by
  have hcached :=
    (listLoop_metas_cached pageFn opts fuel 1 [] calls arts cache hla).2
  constructor
  · intro m hm
    obtain ⟨item, hitem⟩ := Option.isSome_iff_exists.mp (hcached m hm)
    exact ⟨item, hitem, devtoFetch_cached cache http m.id item hitem, rfl⟩
  · rw [(runPull_fields inp arts hlist).2.1, hfetch]
    exact pullLoop_written_series cache http inp.dryRun inp.force
      inp.fstruct inp.now arts (loadedState inp) inp.files 0 0
      (fun m hm => hcached m hm)

/-- Witness for C10 on a one-page listing of a single published item. -/
theorem c10_cache_fetch_series_none_witness :
    list_articles pageFnOne ⟨none, true⟩ 1
      = some ([1], [itemToMeta sampleItem], cacheOne) ∧
    c10Input.listResult = .ok [itemToMeta sampleItem] ∧
    ((∀ m ∈ [itemToMeta sampleItem], ∃ item,
        assocLookup cacheOne m.id = some item ∧
        devtoFetchArticle cacheOne httpDummy m.id
          = (.ok (cachedToPulled item), false) ∧
        (cachedToPulled item).series = none) ∧
     (∀ a ∈ (runPull c10Input).written, a.series = none)) :=
  ⟨rfl, rfl,
   c10_cache_fetch_series_none c10Input pageFnOne ⟨none, true⟩ 1 [1]
     [itemToMeta sampleItem] cacheOne httpDummy rfl rfl rfl⟩

/-- C1: evaluation of the engine on a run where item 1 is fetched and
persisted (its article file exists and the in-memory state records
devto:1) and item 2's fetch then fails.  `run_pull` saves state only at
the end, which a mid-loop error never reaches: the persisted record is
still absent after the failed run, and the identical subsequent
non-forced run fetches item 1 again.  This contradicts the claim that
state is persisted to disk after each successful item. -/
theorem c1_no_incremental_state_save :
    (runPull c1Input).finalState.is_pulled "devto:1" = true ∧
    (runPull c1Input).files = ["devto/draft-a.md"] ∧
    (runPull c1Input).outcome = .error (.Api "boom") ∧
    (runPull c1Input).disk = none ∧
    "1" ∈ (runPull c1SecondInput).fetchCalls :=
  ⟨by decide, by decide, by rfl, by decide, by decide⟩

/-- C7: evaluation of the byte-level model of `PullState::save`, which
writes the serialized record over the state file in place via
`std::fs::write` with no temporary file or rename.  A successful save
fully overwrites the record, but a save whose underlying write fails
after 1 character leaves the file holding the 1-character strict prefix
of the new record — a truncated partial record readable by the next
load — contradicting the all-or-nothing half of the claim. -/
theorem c7_save_in_place_not_atomic :
    (saveBytes stateWithOne none).1 = some (stateToJson stateWithOne) ∧
    (saveBytes stateWithOne none).2 = true ∧
    (saveBytes stateWithOne (some 1)).2 = false ∧
    (saveBytes stateWithOne (some 1)).1 = some "\x7b" ∧
    "\x7b" ≠ stateToJson stateWithOne ∧
    ("\x7b" : String).length < (stateToJson stateWithOne).length :=
  ⟨rfl, rfl, rfl, by decide, by decide, by decide⟩

end Puller
